import Mathlib

/-!
Shallow embedding of the caddy-fly-replay middleware: the pattern-keyed
routing cache (cache.go: `PathCache.Get`, `PathCache.Set`,
`PathCache.Invalidate`, `PathCache.Clean`, `matchesPattern`) and the
per-request orchestration (`handler.go: FlyReplay.ServeHTTP`,
`parseAppName`).  Go strings are modelled as `List Char`, the Go map
`store map[string]*CacheEntry` as an association list with map
semantics, and `time.Time` as `Int` (an instant on a linear clock);
`time.Duration(ttl) * time.Second` added to a time is `+ ttl`.
-/

set_option maxHeartbeats 1000000

namespace FlyReplay

/-- Character-list view of a string literal; Go strings are modelled as `List Char`. -/
def strL (s : String) : List Char := s.data

/-- Embedding of Go `strings.HasPrefix s p`: does `s` start with `p`. -/
def hasPfx : List Char → List Char → Bool
  | _, [] => true
  | [], _ :: _ => false
  | c :: s, d :: p => c == d && hasPfx s p

/-- Embedding of Go `strings.HasSuffix s p`: does `s` end with `p`. -/
def hasSfx (s p : List Char) : Bool := hasPfx s.reverse p.reverse

/-- Embedding of Go `strings.Contains s string(c)` for a one-character needle. -/
def containsChar (s : List Char) (c : Char) : Bool := s.any (· == c)

/-- Embedding of Go `strings.TrimSuffix s suf`: drop `suf` from the end once, if present. -/
def trimSfx (s suf : List Char) : List Char :=
  if hasSfx s suf then s.take (s.length - suf.length) else s

/-- Embedding of Go `strings.TrimPrefix s pre`: drop `pre` from the front once, if present. -/
def trimPfx (s pre : List Char) : List Char :=
  if hasPfx s pre then s.drop pre.length else s

/-- Embedding of Go `strings.Split s string(sep)` for a one-character separator. -/
def splitOnChar (sep : Char) : List Char → List (List Char)
  | [] => [[]]
  | c :: rest =>
    if c = sep then [] :: splitOnChar sep rest
    else
      match splitOnChar sep rest with
      | [] => [[c]]
      | h :: t => (c :: h) :: t

theorem hasPfx_iff (p s : List Char) : hasPfx s p = true ↔ ∃ t, s = p ++ t := by
  induction p generalizing s with
  | nil =>
    cases s <;> simp [hasPfx]
  | cons d p ih =>
    cases s with
    | nil => simp [hasPfx]
    | cons c s =>
      simp only [hasPfx, Bool.and_eq_true, beq_iff_eq, ih, List.cons_append,
        List.cons.injEq]
      constructor
      · rintro ⟨rfl, t, rfl⟩; exact ⟨t, rfl, rfl⟩
      · rintro ⟨t, rfl, rfl⟩; exact ⟨rfl, t, rfl⟩

theorem hasPfx_append (p t : List Char) : hasPfx (p ++ t) p = true :=
  (hasPfx_iff p (p ++ t)).mpr ⟨t, rfl⟩

theorem hasSfx_iff (p s : List Char) : hasSfx s p = true ↔ ∃ t, s = t ++ p := by
  unfold hasSfx
  rw [hasPfx_iff]
  constructor
  · rintro ⟨u, hu⟩
    refine ⟨u.reverse, ?_⟩
    have := congrArg List.reverse hu
    simpa using this
  · rintro ⟨t, rfl⟩
    exact ⟨t.reverse, by simp⟩

theorem hasSfx_nil (s : List Char) : hasSfx s [] = true := by
  unfold hasSfx
  cases s.reverse <;> simp [hasPfx]

theorem splitOnChar_ne_nil (sep : Char) (s : List Char) : splitOnChar sep s ≠ [] := by
  induction s with
  | nil => simp [splitOnChar]
  | cons c rest ih =>
    by_cases h : c = sep
    · simp [splitOnChar, h]
    · simp only [splitOnChar, if_neg h]
      cases hs : splitOnChar sep rest <;> simp

theorem splitOnChar_no_sep (sep : Char) (s : List Char) (h : sep ∉ s) :
    splitOnChar sep s = [s] := by
  induction s with
  | nil => rfl
  | cons c rest ih =>
    have hc : c ≠ sep := fun hc => h (hc ▸ List.mem_cons_self c rest)
    have hrest : sep ∉ rest := fun hm => h (List.mem_cons_of_mem c hm)
    simp [splitOnChar, if_neg hc, ih hrest]

theorem splitOnChar_append_no_sep (sep : Char) (xs zs h : List Char)
    (t' : List (List Char))
    (hx : sep ∉ xs) (hz : splitOnChar sep zs = h :: t') :
    splitOnChar sep (xs ++ zs) = (xs ++ h) :: t' := by
  induction xs with
  | nil => simpa using hz
  | cons c xs ih =>
    have hc : c ≠ sep := fun hc => hx (hc ▸ List.mem_cons_self c xs)
    have hxs : sep ∉ xs := fun hm => hx (List.mem_cons_of_mem c hm)
    show splitOnChar sep (c :: (xs ++ zs)) = (c :: (xs ++ h)) :: t'
    simp only [splitOnChar, if_neg hc, ih hxs]

theorem splitOnChar_append_sep (sep : Char) (s : List Char) :
    splitOnChar sep (s ++ [sep]) = splitOnChar sep s ++ [[]] := by
  induction s with
  | nil => simp [splitOnChar]
  | cons c rest ih =>
    by_cases h : c = sep
    · show splitOnChar sep (c :: (rest ++ [sep])) = splitOnChar sep (c :: rest) ++ [[]]
      simp [splitOnChar, h, ih]
    · show splitOnChar sep (c :: (rest ++ [sep])) = splitOnChar sep (c :: rest) ++ [[]]
      cases hs : splitOnChar sep rest with
      | nil => exact absurd hs (splitOnChar_ne_nil sep rest)
      | cons h0 t0 =>
        have h1 : splitOnChar sep (rest ++ [sep]) = h0 :: (t0 ++ [[]]) := by
          rw [ih, hs]; rfl
        simp only [splitOnChar, if_neg h, h1, hs]
        rfl

theorem splitOnChar_eq_singleton (sep : Char) (s a : List Char)
    (h : splitOnChar sep s = [a]) : s = a := by
  induction s generalizing a with
  | nil =>
    simp [splitOnChar] at h
    exact h.symm
  | cons c rest ih =>
    by_cases hc : c = sep
    · simp [splitOnChar, hc] at h
      exact absurd h.2 (splitOnChar_ne_nil sep rest)
    · simp only [splitOnChar, if_neg hc] at h
      cases hs : splitOnChar sep rest with
      | nil => exact absurd hs (splitOnChar_ne_nil sep rest)
      | cons h0 t0 =>
        rw [hs] at h
        simp only [List.cons.injEq] at h
        obtain ⟨ha, ht⟩ := h
        have : rest = h0 := ih h0 (by rw [hs, ht])
        rw [this, ha]

/-- Embedding of cache.go `matchesPattern(path, pattern)`: exact equality, a
trailing-wildcard test via `TrimSuffix`, and a two-part test when splitting
on the wildcard yields exactly two pieces. -/
def matchesPattern (path pat : List Char) : Bool :=
  if path = pat then true
  else if containsChar pat '*' then
    let pre := trimSfx pat (strL "*")
    if hasPfx path pre then true
    else
      match splitOnChar '*' pat with
      | [a, b] => hasPfx path a && hasSfx path b
      | _ => false
  else false

theorem containsChar_append_star (p : List Char) :
    containsChar (p ++ ['*']) '*' = true := by
  simp [containsChar]

theorem trimSfx_append_star (p : List Char) : trimSfx (p ++ ['*']) ['*'] = p := by
  unfold trimSfx
  rw [if_pos ((hasSfx_iff ['*'] (p ++ ['*'])).mpr ⟨p, rfl⟩)]
  simp

/-- C4: for a pattern of the form prefix plus a final wildcard, `matchesPattern`
returns true exactly when the path starts with the prefix. -/
theorem c4_trailing_star (p x : List Char) :
    matchesPattern x (p ++ strL "*") = true ↔ hasPfx x p = true := by
  have hstar : strL "*" = ['*'] := rfl
  rw [hstar]
  constructor
  · intro h
    by_cases hxp : x = p ++ ['*']
    · subst hxp
      exact (hasPfx_iff p (p ++ ['*'])).mpr ⟨['*'], rfl⟩
    · by_cases hpre : hasPfx x p = true
      · exact hpre
      · exfalso
        unfold matchesPattern at h
        rw [if_neg hxp, if_pos (containsChar_append_star p)] at h
        simp only [hstar, trimSfx_append_star, hpre] at h
        rw [if_neg (by simp)] at h
        rw [splitOnChar_append_sep] at h
        cases hsp : splitOnChar '*' p with
        | nil => exact absurd hsp (splitOnChar_ne_nil '*' p)
        | cons a t0 =>
          cases t0 with
          | nil =>
            rw [hsp] at h
            simp only [List.cons_append, List.nil_append] at h
            have ha : p = a := splitOnChar_eq_singleton '*' p a hsp
            simp only [Bool.and_eq_true] at h
            exact hpre (ha ▸ h.1)
          | cons b t1 =>
            rw [hsp] at h
            simp at h
  · intro hp
    by_cases hxp : x = p ++ ['*']
    · unfold matchesPattern
      rw [if_pos hxp]
    · unfold matchesPattern
      rw [if_neg hxp, if_pos (containsChar_append_star p)]
      simp only [hstar, trimSfx_append_star]
      rw [if_pos hp]

/-- C8: for a pattern with exactly one wildcard in the middle, a path that
starts with the part before the wildcard and ends with the part after it is
matched by `matchesPattern`. -/
theorem c8_mid_star (a b x : List Char) (ha : a ≠ []) (hb : b ≠ [])
    (hsa : '*' ∉ a) (hsb : '*' ∉ b)
    (hpfx : hasPfx x a = true) (hsfx : hasSfx x b = true) :
    matchesPattern x (a ++ '*' :: b) = true := by
  by_cases hxp : x = a ++ '*' :: b
  · unfold matchesPattern
    rw [if_pos hxp]
  · have hcontains : containsChar (a ++ '*' :: b) '*' = true := by
      simp [containsChar]
    unfold matchesPattern
    rw [if_neg hxp, if_pos hcontains]
    by_cases hpre : hasPfx x (trimSfx (a ++ '*' :: b) (strL "*")) = true
    · simp only [hpre]
      simp
    · simp only [hpre]
      rw [if_neg (by simp)]
      have hz : splitOnChar '*' ('*' :: b) = [] :: [b] := by
        have hb1 : splitOnChar '*' b = [b] := splitOnChar_no_sep '*' b hsb
        simp [splitOnChar, hb1]
      have hsplit : splitOnChar '*' (a ++ '*' :: b) = (a ++ []) :: [b] :=
        splitOnChar_append_no_sep '*' a ('*' :: b) [] [b] hsa hz
      rw [List.append_nil] at hsplit
      rw [hsplit]
      simp only [Bool.and_eq_true]
      exact ⟨hpfx, hsfx⟩

/-- C8 witness at a concrete one-wildcard pattern. -/
theorem c8_witness :
    matchesPattern (strL "/u/42/s") (strL "/u/" ++ '*' :: strL "/s") = true :=
  c8_mid_star (strL "/u/") (strL "/s") (strL "/u/42/s") (by decide) (by decide)
    (by decide) (by decide) (by decide) (by decide)

/-- Embedding of config.go `CacheEntry` (the `AllowBypass` field is the one
read by handler.go and written by cache.go `Set`). -/
structure CacheEntry where
  path : List Char
  target : List Char
  pattern : List Char
  allowBypass : Bool
  expiresAt : Int
deriving DecidableEq

/-- Embedding of config.go `PathCache.store : map[string]*CacheEntry` as an
association list with map semantics (at most one binding per key). -/
abbrev Cache : Type := List (List Char × CacheEntry)

/-- Go map read `c.store[key]`: the entry bound to `key`, if any. -/
def cacheFind : Cache → List Char → Option CacheEntry
  | [], _ => none
  | (k, e) :: rest, key => if k = key then some e else cacheFind rest key

/-- Go map `delete(c.store, key)`. -/
def cacheRemove : Cache → List Char → Cache
  | [], _ => []
  | (k, e) :: rest, key =>
    if k = key then cacheRemove rest key else (k, e) :: cacheRemove rest key

/-- Embedding of cache.go `PathCache.Set(path, pattern, target, ttl, allowBypass)`
called at instant `now`: binds the key `pattern` to a fresh entry whose
`ExpiresAt` is `now + ttl` seconds, replacing any previous binding. -/
def cacheSet (c : Cache) (path pat target : List Char) (ttl : Int)
    (allowBypass : Bool) (now : Int) : Cache :=
  (pat, { path := path, target := target, pattern := pat,
          allowBypass := allowBypass, expiresAt := now + ttl }) :: cacheRemove c pat

/-- Embedding of cache.go `PathCache.Invalidate(pattern)`. -/
def cacheInvalidate (c : Cache) (pat : List Char) : Cache :=
  cacheRemove c pat

/-- Embedding of cache.go `PathCache.Clean()` run at instant `now`: drops every
entry whose expiry lies strictly in the past (`now.After(entry.ExpiresAt)`). -/
def cacheClean (c : Cache) (now : Int) : Cache :=
  c.filter (fun kv => !(kv.2.expiresAt < now))

/-- The pattern-scan loop of cache.go `PathCache.Get`: the first stored entry
whose key matches `fullPath` and whose expiry is still in the future
(`time.Now().Before(entry.ExpiresAt)`). -/
def scanMatch (now : Int) (fullPath : List Char) : Cache → Option CacheEntry
  | [] => none
  | (pat, e) :: rest =>
    if matchesPattern fullPath pat && decide (now < e.expiresAt) then some e
    else scanMatch now fullPath rest

/-- Embedding of cache.go `PathCache.Get(fullPath)` called at instant `now`:
an exact-key probe first (a hit only while unexpired), then the pattern scan
over all stored entries. -/
def cacheGet (c : Cache) (fullPath : List Char) (now : Int) : Option CacheEntry :=
  match cacheFind c fullPath with
  | some e => if now < e.expiresAt then some e else scanMatch now fullPath c
  | none => scanMatch now fullPath c

theorem scanMatch_some_not_expired (now : Int) (fp : List Char) (c : Cache)
    (e : CacheEntry) (h : scanMatch now fp c = some e) : now < e.expiresAt := by
  induction c with
  | nil => simp [scanMatch] at h
  | cons kv rest ih =>
    obtain ⟨pat, e0⟩ := kv
    by_cases hc : (matchesPattern fp pat && decide (now < e0.expiresAt)) = true
    · simp only [scanMatch, if_pos hc] at h
      obtain rfl : e0 = e := Option.some.inj h
      simpa using (Bool.and_eq_true _ _ |>.mp hc).2
    · simp only [scanMatch, if_neg hc] at h
      exact ih h

theorem cacheGet_some_not_expired (c : Cache) (fp : List Char) (now : Int)
    (e : CacheEntry) (h : cacheGet c fp now = some e) : now < e.expiresAt := by
  unfold cacheGet at h
  cases hf : cacheFind c fp with
  | none =>
    simp only [hf] at h
    exact scanMatch_some_not_expired now fp c e h
  | some e0 =>
    simp only [hf] at h
    by_cases ht : now < e0.expiresAt
    · rw [if_pos ht] at h
      obtain rfl : e0 = e := Option.some.inj h
      exact ht
    · rw [if_neg ht] at h
      exact scanMatch_some_not_expired now fp c e h

/-- C3: an entry stored with TTL `ttl` at instant `s` is a hit for any lookup
strictly before `s + ttl` whose path its pattern matches, and no lookup,
whether it resolves by exact key or by the pattern scan, ever returns an
entry at or after that entry's expiry instant. -/
theorem c3_ttl_honored (c : Cache) (path pat target fp : List Char)
    (ab : Bool) (ttl s tau : Int) :
    (matchesPattern fp pat = true → tau < s + ttl →
      (cacheGet (cacheSet c path pat target ttl ab s) fp tau).isSome = true) ∧
    (∀ e, cacheGet (cacheSet c path pat target ttl ab s) fp tau = some e →
      tau < e.expiresAt) := by
  constructor
  · intro hm ht
    have hscan : (scanMatch tau fp (cacheSet c path pat target ttl ab s)).isSome = true := by
      unfold cacheSet scanMatch
      rw [if_pos (by simp [hm, ht])]
      rfl
    unfold cacheGet
    cases hf : cacheFind (cacheSet c path pat target ttl ab s) fp with
    | none => simpa only [hf] using hscan
    | some e0 =>
      simp only [hf]
      by_cases h0 : tau < e0.expiresAt
      · rw [if_pos h0]; rfl
      · rw [if_neg h0]; exact hscan
  · intro e h
    exact cacheGet_some_not_expired _ fp tau e h

/-- C3 witness at a concrete store-then-lookup. -/
theorem c3_witness :
    (cacheGet (cacheSet [] (strL "h/a/x") (strL "h/a/*") (strL "t") 60 false 0)
      (strL "h/a/x") 59).isSome = true :=
  (c3_ttl_honored [] (strL "h/a/x") (strL "h/a/*") (strL "t") (strL "h/a/x")
    false 60 0 59).1 (by decide) (by decide)

/-- Every key of a cache reachable from the empty cache by the three mutating
operations binds an entry whose `Pattern` field equals that key. -/
inductive ReachableCache : Cache → Prop where
  | empty : ReachableCache []
  | set (c : Cache) (path pat target : List Char) (ttl : Int) (ab : Bool)
      (now : Int) : ReachableCache c →
      ReachableCache (cacheSet c path pat target ttl ab now)
  | inv (c : Cache) (pat : List Char) : ReachableCache c →
      ReachableCache (cacheInvalidate c pat)
  | clean (c : Cache) (now : Int) : ReachableCache c →
      ReachableCache (cacheClean c now)

theorem mem_cacheRemove (c : Cache) (key : List Char)
    (kv : List Char × CacheEntry) (h : kv ∈ cacheRemove c key) : kv ∈ c := by
  induction c with
  | nil => simpa [cacheRemove] using h
  | cons kv0 rest ih =>
    obtain ⟨k, e⟩ := kv0
    by_cases hk : k = key
    · simp only [cacheRemove, if_pos hk] at h
      exact List.mem_cons_of_mem _ (ih h)
    · simp only [cacheRemove, if_neg hk] at h
      rcases List.mem_cons.mp h with h1 | h2
      · exact h1 ▸ List.mem_cons_self _ _
      · exact List.mem_cons_of_mem _ (ih h2)

/-- C10: the pattern-equals-key invariant holds of every cache reachable from
the empty one by `Set`, `Invalidate` and `Clean`. -/
theorem c10_pattern_key_invariant (c : Cache) (hr : ReachableCache c) :
    ∀ kv ∈ c, (Prod.snd kv).pattern = kv.1 := by
  induction hr with
  | empty => intro kv h; simp at h
  | set c0 path pat target ttl ab now _ ih =>
    intro kv h
    rcases List.mem_cons.mp h with h1 | h2
    · rw [h1]
    · exact ih kv (mem_cacheRemove c0 pat kv h2)
  | inv c0 pat _ ih =>
    intro kv h
    exact ih kv (mem_cacheRemove c0 pat kv h)
  | clean c0 now _ ih =>
    intro kv h
    exact ih kv (List.mem_of_mem_filter h)

/-- C10 witness: the invariant evaluated on a concrete reachable cache. -/
theorem c10_witness :
    ({ path := strL "h/p", target := strL "t", pattern := strL "k",
       allowBypass := false, expiresAt := 60 } : CacheEntry).pattern = strL "k" :=
  c10_pattern_key_invariant
    (cacheClean (cacheSet [] (strL "h/p") (strL "k") (strL "t") 60 false 0) 0)
    (ReachableCache.clean _ 0 (ReachableCache.set [] _ _ _ 60 false 0 ReachableCache.empty))
    (strL "k",
     { path := strL "h/p", target := strL "t", pattern := strL "k",
       allowBypass := false, expiresAt := 60 })
    (by decide)

/-- Embedding of Go `unicode.IsSpace` restricted to the Latin-1 range (the
White_Space code points above U+00FF are not modelled; no header token used
by the handler contains them). -/
def goIsSpace (c : Char) : Bool :=
  c == ' ' || c == '\t' || c == '\n' || c == Char.ofNat 11 || c == Char.ofNat 12 ||
  c == '\r' || c == Char.ofNat 0x85 || c == Char.ofNat 0xA0

/-- Embedding of Go `strings.TrimSpace`: drop whitespace from both ends. -/
def trimSpace (s : List Char) : List Char :=
  ((s.dropWhile goIsSpace).reverse.dropWhile goIsSpace).reverse

/-- ASCII decimal digit test, as in Go `strconv` parsing. -/
def isDigit (c : Char) : Bool := 48 ≤ c.toNat && c.toNat ≤ 57

/-- Decimal value of a digit string, most significant first. -/
def digitsVal : List Char → Nat → Nat
  | [], acc => acc
  | c :: rest, acc => digitsVal rest (acc * 10 + (c.toNat - 48))

/-- Embedding of Go `strconv.Atoi` on a 64-bit platform: an optional sign
followed by at least one ASCII digit, rejected when the value leaves the
`int64` range; `none` is Go's non-nil `err`. -/
def goAtoi (s : List Char) : Option Int :=
  match s with
  | [] => none
  | c :: rest =>
    let signed : Bool × List Char :=
      if c = '-' then (true, rest)
      else if c = '+' then (false, rest)
      else (false, c :: rest)
    if signed.2 = [] then none
    else if signed.2.all isDigit then
      let v : Int := if signed.1 then -(digitsVal signed.2 0 : Int)
                     else (digitsVal signed.2 0 : Int)
      if v < -(2 ^ 63) ∨ 2 ^ 63 ≤ v then none else some v
    else none

/-- TTL resolution of handler.go lines 137-141: start from the configured
default; an override header replaces it only when `strconv.Atoi` succeeds and
the parsed value is at least 10.  An empty header means the header is absent
(`rec.Header().Get` returns an empty string then). -/
def resolveTTL (defaultTTL : Int) (hdr : List Char) : Int :=
  if hdr = [] then defaultTTL
  else
    match goAtoi hdr with
    | some n => if 10 ≤ n then n else defaultTTL
    | none => defaultTTL

/-- The loop body of handler.go `parseAppName`: first semicolon-separated part
that, once trimmed, starts with the token naming the app key, stripped of it. -/
def findAppPart : List (List Char) → List Char
  | [] => []
  | part :: rest =>
    let t := trimSpace part
    if hasPfx t (strL "app=") then trimPfx t (strL "app=")
    else findAppPart rest

/-- Embedding of handler.go `parseAppName(header)`. -/
def parseAppName (header : List Char) : List Char :=
  findAppPart (splitOnChar ';' header)

/-- Embedding of config.go `AppConfig`. -/
structure AppConfig where
  domain : List Char
deriving DecidableEq

/-- Embedding of config.go `FlyReplay` configuration: the app table, the
default TTL, and the two feature flags.  `enableCache` stands for
`f.EnableCache && f.cache != nil` (Provision allocates the cache exactly when
`EnableCache` is set). -/
structure Config where
  apps : List (List Char × AppConfig)
  cacheTTL : Int
  enableCache : Bool
  debug : Bool
deriving DecidableEq

/-- Go map read `f.Apps[name]`. -/
def lookupApp : List (List Char × AppConfig) → List Char → Option AppConfig
  | [], _ => none
  | (n, app) :: rest, name => if n = name then some app else lookupApp rest name

/-- The parts of the inbound request that handler.go reads: `r.Host`,
`r.URL.Path`, the buffered body, and the inbound bypass-control header
(`[]` when absent). -/
structure Request where
  host : List Char
  path : List Char
  body : List Char
  cacheControl : List Char
deriving DecidableEq

/-- The intercepted platform response as handler.go reads it from the
`ResponseRecorder`: status, body, and the five headers consulted
(`[]` models an absent header, as `Header().Get` returns an empty string). -/
structure PlatResp where
  status : Nat
  flyReplay : List Char
  flyReplayCache : List Char
  ttlSecs : List Char
  bypassHdr : List Char
  traceId : List Char
  body : List Char
deriving DecidableEq

/-- Result of Step 1 of `ServeHTTP`: either the request was forwarded to the
cached target, or control falls through to the platform delegation with the
`cacheStatus` accumulated so far (empty on a miss). -/
inductive Step1Result where
  | fromCache (target domain : List Char)
  | toPlatform (cacheStatus : List Char)
deriving DecidableEq

/-- Step 1 of handler.go `ServeHTTP` (the cache check): on a hit, either take
the bypass branch when the entry allows it and the client asked to skip, or
serve from cache when the cached target resolves in the app table; when the
target does not resolve, control falls through with `cacheStatus = "hit"`. -/
def step1 (f : Config) (c : Cache) (now : Int) (req : Request) : Step1Result :=
  if f.enableCache then
    match cacheGet c (req.host ++ req.path) now with
    | some entry =>
      if entry.allowBypass = true ∧ req.cacheControl = strL "skip" then
        .toPlatform (strL "bypass")
      else
        match lookupApp f.apps entry.target with
        | some app => .fromCache entry.target app.domain
        | none => .toPlatform (strL "hit")
    | none => .toPlatform []
  else .toPlatform []

/-- Terminal result of one `ServeHTTP` run.  `fromCache` and `forwarded`
carry the target domain and the `fly-replay-cache-status` value set on the
forwarded request; `badGateway` carries the status code and the plain-text
body written by `http.Error`; `direct` is the platform response flushed
verbatim; `delegateFailed` is the delegate's error propagated unchanged. -/
inductive Outcome where
  | fromCache (target domain status : List Char)
  | forwarded (appName domain status traceId : List Char)
  | badGateway (statusCode : Nat) (body : List Char)
  | direct (resp : PlatResp)
  | delegateFailed
deriving DecidableEq

/-- The cache-instruction block of Step 3 of `ServeHTTP`: on `invalidate`,
remove the entry keyed by the request's full path; on any other non-empty
value, store under `r.Host + cachePattern` with the resolved TTL and the
bypass flag from the allow-bypass header. -/
def applyCacheInstruction (f : Config) (c : Cache) (now : Int) (req : Request)
    (appName : List Char) (resp : PlatResp) : Cache :=
  if f.enableCache then
    if resp.flyReplayCache = [] then c
    else if resp.flyReplayCache = strL "invalidate" then
      cacheInvalidate c (req.host ++ req.path)
    else
      cacheSet c (req.host ++ req.path) (req.host ++ resp.flyReplayCache) appName
        (resolveTTL f.cacheTTL resp.ttlSecs)
        (decide (resp.bypassHdr = strL "yes")) now
  else c

/-- Step 3 of `ServeHTTP` (after a successful delegation): no replay header
means the platform response is flushed verbatim; otherwise parse the app
name, run the cache instruction, mark the forwarded request `bypass` or
`miss`, and forward, or answer `502` when the app is not configured. -/
def stepReplay (f : Config) (c : Cache) (now : Int) (req : Request)
    (cs : List Char) (resp : PlatResp) : Outcome × Cache :=
  if resp.flyReplay = [] then (.direct resp, c)
  else
    match lookupApp f.apps (parseAppName resp.flyReplay) with
    | some app =>
      (.forwarded (parseAppName resp.flyReplay) app.domain
        (if cs = strL "bypass" then strL "bypass" else strL "miss") resp.traceId,
       applyCacheInstruction f c now req (parseAppName resp.flyReplay) resp)
    | none =>
      (.badGateway 502 (strL "Bad Gateway: unknown app '" ++
         parseAppName resp.flyReplay ++ strL "'"),
       applyCacheInstruction f c now req (parseAppName resp.flyReplay) resp)

/-- Step 2 of `ServeHTTP`: delegate through the response recorder; a delegate
error is returned unchanged, otherwise Step 3 runs on the captured response. -/
def afterLookup (f : Config) (c : Cache) (now : Int) (req : Request)
    (cs : List Char) (plat : Except Unit PlatResp) : Outcome × Cache :=
  match plat with
  | .error _ => (.delegateFailed, c)
  | .ok resp => stepReplay f c now req cs resp

/-- Embedding of handler.go `FlyReplay.ServeHTTP`: the cache check, then
delegation and the replay step.  `now` models `time.Now()` during the
request; `plat` is the delegate's behaviour on this request. -/
def serveHTTP (f : Config) (c : Cache) (now : Int) (req : Request)
    (plat : Except Unit PlatResp) : Outcome × Cache :=
  match step1 f c now req with
  | .fromCache target domain => (.fromCache target domain (strL "hit"), c)
  | .toPlatform cs => afterLookup f c now req cs plat

theorem stepReplay_snd (f : Config) (c : Cache) (now : Int) (req : Request)
    (cs : List Char) (resp : PlatResp) :
    (stepReplay f c now req cs resp).2 =
      if resp.flyReplay = [] then c
      else applyCacheInstruction f c now req (parseAppName resp.flyReplay) resp := by
  unfold stepReplay
  by_cases hr : resp.flyReplay = []
  · rw [if_pos hr, if_pos hr]
  · rw [if_neg hr, if_neg hr]
    cases hl : lookupApp f.apps (parseAppName resp.flyReplay) <;> rfl

theorem applyCacheInstruction_no_instruction (f : Config) (c : Cache) (now : Int)
    (req : Request) (appName : List Char) (resp : PlatResp)
    (h : resp.flyReplayCache = []) :
    applyCacheInstruction f c now req appName resp = c := by
  unfold applyCacheInstruction
  by_cases hen : f.enableCache = true
  · rw [if_pos hen, if_pos h]
  · rw [if_neg hen]

theorem stepReplay_fst_ne_fromCache (f : Config) (c : Cache) (now : Int)
    (req : Request) (cs : List Char) (resp : PlatResp) (t d s : List Char) :
    (stepReplay f c now req cs resp).1 ≠ .fromCache t d s := by
  unfold stepReplay
  by_cases hr : resp.flyReplay = []
  · rw [if_pos hr]
    simp
  · rw [if_neg hr]
    cases hl : lookupApp f.apps (parseAppName resp.flyReplay) <;> simp [hl]

/-- C5: the TTL override header replaces the configured default only when it
parses as an integer of at least 10; an unparseable value or one below 10
leaves the default in force, with no error (the resolution is total). -/
theorem c5_ttl_override (d : Int) (hdr : List Char) (n : Int) :
    (goAtoi hdr = some n → 10 ≤ n → resolveTTL d hdr = n) ∧
    (goAtoi hdr = some n → n < 10 → resolveTTL d hdr = d) ∧
    (goAtoi hdr = none → resolveTTL d hdr = d) := by
  by_cases he : hdr = []
  · subst he
    refine ⟨fun h _ => absurd h (by simp [goAtoi]), fun h _ => absurd h (by simp [goAtoi]),
      fun _ => by simp [resolveTTL]⟩
  · refine ⟨fun h h10 => ?_, fun h h10 => ?_, fun h => ?_⟩
    · simp only [resolveTTL, if_neg he, h, if_pos h10]
    · simp only [resolveTTL, if_neg he, h, if_neg (not_le.mpr h10)]
    · simp only [resolveTTL, if_neg he, h]

/-- C5 witness: a below-floor override, an accepted override, and a
malformed override, at the configured default of 300. -/
theorem c5_witness :
    resolveTTL 300 (strL "5") = 300 ∧ resolveTTL 300 (strL "60") = 60 ∧
    resolveTTL 300 (strL "abc") = 300 :=
  ⟨(c5_ttl_override 300 (strL "5") 5).2.1 (by decide) (by decide),
   (c5_ttl_override 300 (strL "60") 60).1 (by decide) (by decide),
   (c5_ttl_override 300 (strL "abc") 0).2.2 (by decide)⟩

/-- C7: when delegation happens and the replay instruction's app name is not
configured, the client gets a 502 with a plain-text body naming the app, and
the run terminates without forwarding and without an error. -/
theorem c7_unknown_app (f : Config) (c : Cache) (now : Int) (req : Request)
    (cs : List Char) (resp : PlatResp)
    (h1 : step1 f c now req = .toPlatform cs)
    (hr : resp.flyReplay ≠ [])
    (hu : lookupApp f.apps (parseAppName resp.flyReplay) = none) :
    (serveHTTP f c now req (.ok resp)).1 =
      .badGateway 502 (strL "Bad Gateway: unknown app '" ++
        parseAppName resp.flyReplay ++ strL "'") := by
  simp only [serveHTTP, h1, afterLookup, stepReplay, if_neg hr, hu]

/-- C7 witness: app `ghost` absent from an empty table yields the 502. -/
theorem c7_witness :
    (serveHTTP ⟨[], 300, false, false⟩ [] 0 ⟨strL "h", strL "/p", [], []⟩
      (.ok ⟨200, strL "app=ghost", [], [], [], [], []⟩)).1 =
      .badGateway 502 (strL "Bad Gateway: unknown app '" ++
        parseAppName (strL "app=ghost") ++ strL "'") :=
  c7_unknown_app ⟨[], 300, false, false⟩ [] 0 ⟨strL "h", strL "/p", [], []⟩ []
    ⟨200, strL "app=ghost", [], [], [], [], []⟩ (by decide) (by decide) (by decide)

/-- C6: a non-expired hit whose entry allows bypass, on a request carrying the
skip token, is not served from cache; the platform is consulted and the
forwarded request carries cache status `bypass`. -/
theorem c6_bypass (f : Config) (c : Cache) (now : Int) (req : Request)
    (resp : PlatResp) (entry : CacheEntry) (app : AppConfig)
    (hen : f.enableCache = true)
    (hget : cacheGet c (req.host ++ req.path) now = some entry)
    (hab : entry.allowBypass = true)
    (hctl : req.cacheControl = strL "skip")
    (hr : resp.flyReplay ≠ [])
    (happ : lookupApp f.apps (parseAppName resp.flyReplay) = some app) :
    (serveHTTP f c now req (.ok resp)).1 =
      .forwarded (parseAppName resp.flyReplay) app.domain (strL "bypass")
        resp.traceId := by
  have h1 : step1 f c now req = .toPlatform (strL "bypass") := by
    unfold step1
    simp only [hen, if_true, hget, if_pos (And.intro hab hctl)]
  simp only [serveHTTP, h1, afterLookup, stepReplay, if_neg hr, happ, if_pos rfl,
    if_true]

/-- C6 witness at a concrete hit with bypass requested. -/
theorem c6_witness :
    (serveHTTP ⟨[(strL "a", ⟨strL "d"⟩)], 300, true, false⟩
      [(strL "h/p", ⟨strL "h/p", strL "a", strL "h/p", true, 100⟩)]
      0 ⟨strL "h", strL "/p", [], strL "skip"⟩
      (.ok ⟨200, strL "app=a", [], [], [], [], []⟩)).1 =
      .forwarded (parseAppName (strL "app=a")) (strL "d") (strL "bypass") [] :=
  c6_bypass ⟨[(strL "a", ⟨strL "d"⟩)], 300, true, false⟩
    [(strL "h/p", ⟨strL "h/p", strL "a", strL "h/p", true, 100⟩)]
    0 ⟨strL "h", strL "/p", [], strL "skip"⟩
    ⟨200, strL "app=a", [], [], [], [], []⟩
    ⟨strL "h/p", strL "a", strL "h/p", true, 100⟩ ⟨strL "d"⟩
    (by decide) (by decide) (by decide) (by decide) (by decide) (by decide)

/-- C1 counterexample: caching enabled, the intercepted response carries
`fly-replay-cache: invalidate`, and the cache holds an entry under the key
`host + "invalidate"` (the key the claim says is removed); after the run that
entry is still present, because the code invalidates `host + URL path`. -/
theorem c1_counterexample :
    cacheFind
      ((serveHTTP ⟨[(strL "a", ⟨strL "d"⟩)], 300, true, false⟩
        [(strL "hinvalidate", ⟨[], strL "a", strL "hinvalidate", false, 100⟩)]
        0 ⟨strL "h", strL "/p", [], []⟩
        (.ok ⟨200, strL "app=a", strL "invalidate", [], [], [], []⟩)).2)
      (strL "h" ++ strL "invalidate") =
      some ⟨[], strL "a", strL "hinvalidate", false, 100⟩ := by decide

/-- C1 as amended: under the invalidate instruction the entry removed is the
one keyed by the request's full path `host + URL path`, not by
`host + instruction value`. -/
theorem c1_invalidate_by_full_path (f : Config) (c : Cache) (now : Int)
    (req : Request) (cs : List Char) (resp : PlatResp)
    (hen : f.enableCache = true)
    (h1 : step1 f c now req = .toPlatform cs)
    (hr : resp.flyReplay ≠ [])
    (hc : resp.flyReplayCache = strL "invalidate") :
    (serveHTTP f c now req (.ok resp)).2 =
      cacheInvalidate c (req.host ++ req.path) := by
  simp only [serveHTTP, h1, afterLookup]
  rw [stepReplay_snd, if_neg hr]
  unfold applyCacheInstruction
  rw [if_pos hen, hc]
  rw [if_neg (by decide : ¬(strL "invalidate" = ([] : List Char))), if_pos rfl]

/-- C1 witness: an expired entry keyed by the literal full path is removed on
the invalidate instruction. -/
theorem c1_witness :
    (serveHTTP ⟨[(strL "a", ⟨strL "d"⟩)], 300, true, false⟩
      [(strL "h/p", ⟨strL "h/p", strL "a", strL "h/p", false, 100⟩)]
      200 ⟨strL "h", strL "/p", [], []⟩
      (.ok ⟨200, strL "app=a", strL "invalidate", [], [], [], []⟩)).2 =
      cacheInvalidate
        [(strL "h/p", ⟨strL "h/p", strL "a", strL "h/p", false, 100⟩)]
        (strL "h" ++ strL "/p") :=
  c1_invalidate_by_full_path ⟨[(strL "a", ⟨strL "d"⟩)], 300, true, false⟩
    [(strL "h/p", ⟨strL "h/p", strL "a", strL "h/p", false, 100⟩)]
    200 ⟨strL "h", strL "/p", [], []⟩ []
    ⟨200, strL "app=a", strL "invalidate", [], [], [], []⟩
    (by decide) (by decide) (by decide) (by decide)

/-- C2 counterexample: caching enabled, non-expired hit, no bypass, cached
target `ghost` absent from the app table; the run delegates to the platform
and produces a forwarded response, so delegation does happen. -/
theorem c2_counterexample :
    cacheGet [(strL "h/p", ⟨strL "h/p", strL "ghost", strL "h/p", false, 100⟩)]
        (strL "h" ++ strL "/p") 0 =
      some ⟨strL "h/p", strL "ghost", strL "h/p", false, 100⟩ ∧
    lookupApp [(strL "a", ⟨strL "d"⟩)] (strL "ghost") = none ∧
    (serveHTTP ⟨[(strL "a", ⟨strL "d"⟩)], 300, true, false⟩
      [(strL "h/p", ⟨strL "h/p", strL "ghost", strL "h/p", false, 100⟩)]
      0 ⟨strL "h", strL "/p", [], []⟩
      (.ok ⟨200, strL "app=a", [], [], [], [], []⟩)).1 =
      .forwarded (strL "a") (strL "d") (strL "miss") [] := by decide

/-- C2 as amended: on a hit without bypass whose target is not configured, no
response is produced via the cache path, and the handler falls through to
delegation with `cacheStatus = "hit"`. -/
theorem c2_hit_unknown_target_delegates (f : Config) (c : Cache) (now : Int)
    (req : Request) (entry : CacheEntry) (plat : Except Unit PlatResp)
    (hen : f.enableCache = true)
    (hget : cacheGet c (req.host ++ req.path) now = some entry)
    (hnb : ¬(entry.allowBypass = true ∧ req.cacheControl = strL "skip"))
    (hu : lookupApp f.apps entry.target = none) :
    step1 f c now req = .toPlatform (strL "hit") ∧
    serveHTTP f c now req plat = afterLookup f c now req (strL "hit") plat := by
  have h1 : step1 f c now req = .toPlatform (strL "hit") := by
    unfold step1
    simp only [hen, if_true, hget, if_neg hnb, hu]
  exact ⟨h1, by unfold serveHTTP; rw [h1]⟩

/-- C2 witness at a concrete hit with an unconfigured target. -/
theorem c2_witness :
    step1 ⟨[(strL "a", ⟨strL "d"⟩)], 300, true, false⟩
      [(strL "h/p", ⟨strL "h/p", strL "ghost", strL "h/p", false, 100⟩)]
      0 ⟨strL "h", strL "/p", [], []⟩ = .toPlatform (strL "hit") :=
  (c2_hit_unknown_target_delegates ⟨[(strL "a", ⟨strL "d"⟩)], 300, true, false⟩
    [(strL "h/p", ⟨strL "h/p", strL "ghost", strL "h/p", false, 100⟩)]
    0 ⟨strL "h", strL "/p", [], []⟩
    ⟨strL "h/p", strL "ghost", strL "h/p", false, 100⟩ (.error ())
    (by decide) (by decide) (by decide) (by decide)).1

/-- C9: lookups leave the cache untouched: a run that serves from cache
returns the cache unchanged, and a run whose platform response carries no
caching instruction returns it unchanged too, whether the lookup was a hit,
a miss, a bypassed hit, or skipped expired entries during the scan. -/
theorem c9_lookup_frame (f : Config) (c : Cache) (now : Int) (req : Request)
    (plat : Except Unit PlatResp) :
    (∀ t d s, (serveHTTP f c now req plat).1 = .fromCache t d s →
      (serveHTTP f c now req plat).2 = c) ∧
    (∀ resp, plat = .ok resp → resp.flyReplayCache = [] →
      (serveHTTP f c now req plat).2 = c) := by
  constructor
  · intro t d s _
    unfold serveHTTP
    cases h1 : step1 f c now req with
    | fromCache t0 d0 => rfl
    | toPlatform cs =>
      unfold afterLookup
      cases plat with
      | error e => rfl
      | ok resp =>
        rw [stepReplay_snd]
        by_cases hr : resp.flyReplay = []
        · rw [if_pos hr]
        · exfalso
          rename_i hfst
          rw [serveHTTP, h1] at hfst
          exact stepReplay_fst_ne_fromCache f c now req cs resp t d s hfst
  · intro resp hp hni
    subst hp
    unfold serveHTTP
    cases h1 : step1 f c now req with
    | fromCache t0 d0 => rfl
    | toPlatform cs =>
      unfold afterLookup
      rw [stepReplay_snd]
      by_cases hr : resp.flyReplay = []
      · rw [if_pos hr]
      · rw [if_neg hr]
        exact applyCacheInstruction_no_instruction f c now req _ resp hni

/-- C9 witness: a concrete hit-serving run and a concrete no-instruction run
both leave the cache unchanged. -/
theorem c9_witness :
    (serveHTTP ⟨[(strL "a", ⟨strL "d"⟩)], 300, true, false⟩
      [(strL "h/p", ⟨strL "h/p", strL "a", strL "h/p", false, 100⟩)]
      0 ⟨strL "h", strL "/p", [], []⟩
      (.ok ⟨200, strL "app=a", [], [], [], [], []⟩)).2 =
      [(strL "h/p", ⟨strL "h/p", strL "a", strL "h/p", false, 100⟩)] :=
  (c9_lookup_frame ⟨[(strL "a", ⟨strL "d"⟩)], 300, true, false⟩
    [(strL "h/p", ⟨strL "h/p", strL "a", strL "h/p", false, 100⟩)]
    0 ⟨strL "h", strL "/p", [], []⟩
    (.ok ⟨200, strL "app=a", [], [], [], [], []⟩)).2
    ⟨200, strL "app=a", [], [], [], [], []⟩ rfl (by decide)

end FlyReplay
